import Mathlib

/-!
Verification of the retropass password codecs.

This file gives a shallow embedding, in Lean, of the password codec engine of
the retropass repository (`src/retropass/password.py`, `src/util.py`) and
proves the specified properties about it.

Bit buffers (the `bitarray` objects of the source) are modelled as
`List Bool` holding the bit *sequence* of the array.  Two facts about the
`bitarray` library are load-bearing and are reflected in the model:

* constructing a bitarray from another bitarray with the *opposite*
  bit-endianness copies the raw byte buffer, so the bit sequence seen through
  the new endianness is the old sequence with the bits of every byte
  reversed (`revChunks8` below);
* `tobytes` of a little-endian bitarray packs bit `i` of the sequence at
  significance `i % 8` of byte `i / 8` (`tobytesLE` below).

Machine integers are modelled as `Nat`/`Int` with explicit `% 256` where the
source reduces mod 0x100.
-/

/-! ## Generic list / bit utilities -/

/-- `str.strip()` whitespace test. -/
def isWs (c : Char) : Bool := c.isWhitespace

/-- Python `password.strip()`: drop leading and trailing whitespace. -/
def trimWs (l : List Char) : List Char :=
  ((l.dropWhile isWs).reverse.dropWhile isWs).reverse

/-- Python `password.replace(' ', '')`: remove every space character. -/
def removeSpaces (l : List Char) : List Char :=
  l.filter (fun c => !(c == ' '))

/-- Concatenate a list of lists (`itertools`-style flatten). -/
def listJoin : List (List α) → List α
  | [] => []
  | x :: xs => x ++ listJoin xs

/-- The bits of `x`, least significant first, `w` bits wide
(`int2ba(x, w, endian='little')`). -/
def natToBitsLE (w x : Nat) : List Bool :=
  (List.range w).map x.testBit

/-- The bits of `x`, most significant first, `w` bits wide
(`int2ba(x, w, endian='big')`). -/
def natToBitsBE (w x : Nat) : List Bool :=
  (natToBitsLE w x).reverse

/-- `ba2int` of a big-endian bitarray: first bit is most significant. -/
def bitsBEtoNat (l : List Bool) : Nat :=
  l.foldl (fun a b => 2 * a + (if b then 1 else 0)) 0

/-- `ba2int` of a little-endian bitarray: first bit is least significant. -/
def bitsLEtoNat (l : List Bool) : Nat :=
  l.foldr (fun b a => (if b then 1 else 0) + 2 * a) 0

/-- Chunking worker, structurally recursive on a fuel bound (the fuel is at
least the list length at every call from `chunkList`). -/
def chunkFuel (n : Nat) : Nat → List α → List (List α)
  | _, [] => []
  | 0, _ :: _ => []
  | fuel + 1, x :: xs => (x :: xs.take (n - 1)) :: chunkFuel n fuel (xs.drop (n - 1))

/-- Modelled from the spec: the `chunk` helper of `retropass/util.py` (the
module with `rotate`/`chunk` is not under src); "chunk a bit buffer into
fixed-width groups". -/
def chunkList (n : Nat) (l : List α) : List (List α) :=
  chunkFuel n l.length l

/-- Reverse the bits of every byte of a bit sequence: the effect, on the bit
sequence, of re-wrapping a bitarray's buffer with the opposite endianness. -/
def revChunks8 (l : List Bool) : List Bool :=
  listJoin ((chunkList 8 l).map List.reverse)

/-- `tobytes()` of a little-endian bitarray: bit `i` of the sequence sits at
significance `i % 8` of byte `i / 8`. -/
def tobytesLE (l : List Bool) : List Nat :=
  (chunkList 8 l).map bitsLEtoNat

/-- `sum(...)` over a byte sequence. -/
def byteSum (l : List Nat) : Nat := l.foldr (· + ·) 0

/-- Modelled from the spec: the `rotate` helper of `retropass/util.py` (not
under src); "rotate a bit buffer by N positions", used as "rotate it left by
`shift` bit positions". -/
def rotateLeft (l : List α) (n : Nat) : List α :=
  l.drop (n % l.length) ++ l.take (n % l.length)

/-- `[f x for x in l]` where every `f` application may raise (propagate the
first `none`). -/
def mapOpt (f : α → Option β) : List α → Option (List β)
  | [] => some []
  | a :: l =>
    match f a with
    | none => none
    | some b => (mapOpt f l).map (b :: ·)

/-- `' '.join(parts)`. -/
def joinSpace : List (List Char) → List Char
  | [] => []
  | [x] => x
  | x :: y :: ys => x ++ ' ' :: joinSpace (y :: ys)

/-! ## The bit-order flip utility (`src/util.py`, `flip_idx_bitorder`) -/

/-- `flip_idx_bitorder` exactly as written in the source:
`start_of_byte = index // 8; return start_of_byte + (7 - index % 8)`. -/
def flip_idx_bitorder (index : Nat) : Nat :=
  index / 8 + (7 - index % 8)

/-! ## The structured-checksum family (Metroid, Kid Icarus) -/

/-- Modelled from the spec: the game's text-codec table
(`plugins/metroid.tbl`, loaded by `retropass/text.py`) is not under src; the
spec treats it as an external string codec mapping characters to 6-bit codes.
This is the standard 64-character alphabet, consistent with every concrete
vector of the spec. -/
def metroidCharset : List Char :=
  ("0123456789ABCDEFGHIJKLMNOPQRSTUVWXYZabcdefghijklmnopqrstuvwxyz?-").data

/-- `password.encode('metroid')`, one character: its 6-bit code. -/
def charToCode (c : Char) : Option Nat :=
  metroidCharset.findIdx? (· == c)

/-- `bytes(codepoints).decode('metroid')`, one code: its character. -/
def codeToChar (n : Nat) : Option Char :=
  metroidCharset.get? n

/-- The state of a `MetroidPassword`: the 128-bit payload (bit sequence of the
little-endian bitarray `self.data`) and the shift byte. -/
structure MetroidPw where
  data : List Bool
  shift : Nat
  deriving DecidableEq, Repr

/-- The ways `MetroidPassword.__init__` can fail: `InvalidPassword("wrong
length")`, a `KeyError` from the text codec, and
`InvalidPassword("checksum failure, ")`. -/
inductive MetroidErr where
  | wrongLength
  | codecErr
  | checksumFailure
  deriving DecidableEq, Repr

/-- `MetroidPassword.checksum`: `(sum(self.data.tobytes()) + self.shift) % 0x100`. -/
def metroidChecksum (pw : MetroidPw) : Nat :=
  (byteSum (tobytesLE pw.data) + pw.shift) % 256

/-- `MetroidPassword.__init__` for a given password text: strip whitespace,
remove spaces, check length 24, map characters to 6-bit codes concatenated
most-significant-bit-first, split off payload / shift / checksum, and verify
the checksum. -/
def metroidDecode (t : List Char) : Except MetroidErr MetroidPw :=
  let cleaned := removeSpaces (trimWs t)
  if cleaned.length ≠ 24 then .error .wrongLength
  else
    match mapOpt charToCode cleaned with
    | none => .error .codecErr
    | some codes =>
      let bs := listJoin (codes.map (natToBitsBE 6))
      let pw : MetroidPw :=
        ⟨revChunks8 (bs.take 128), bitsBEtoNat ((bs.take 136).drop 128)⟩
      let stored := bitsBEtoNat (bs.drop 136)
      if metroidChecksum pw ≠ stored then .error .checksumFailure
      else .ok pw

/-- `MetroidPassword.__init__` with its optional argument: a missing password
defaults to `'0' * 24`. -/
def metroidInit (o : Option (List Char)) : Except MetroidErr MetroidPw :=
  metroidDecode (o.getD (List.replicate 24 '0'))

/-- `MetroidPassword.bits`: rotated payload, then shift byte and checksum
byte appended least-significant-bit-first. -/
def metroidBits (pw : MetroidPw) : List Bool :=
  rotateLeft pw.data pw.shift
    ++ natToBitsLE 8 pw.shift
    ++ natToBitsLE 8 (metroidChecksum pw)

/-- `MetroidPassword.__str__`: re-address `bits` most-significant-bit-first,
split into 6-bit codepoints, map each to a character, and join the characters
in space-separated groups of 6. -/
def metroidStr (pw : MetroidPw) : Option (List Char) :=
  match mapOpt codeToChar ((chunkList 6 (revChunks8 (metroidBits pw))).map bitsBEtoNat) with
  | none => none
  | some chars => some (joinSpace (chunkList 6 chars))

/-- `KidIcarusPassword.checksum`: `sum(self.data.tobytes()) % 0x100` (the
shift-less variant of the family). -/
def kiChecksum (data : List Bool) : Nat :=
  byteSum (tobytesLE data) % 256

/-- `KidIcarusPassword.__init__`: strip whitespace, remove spaces, check
length 24, map characters to 6-bit codes concatenated into a little-endian
bitarray (least-significant-bit-first groups), split off the trailing
checksum byte, and verify it.  The game's text codec (`plugins/ki.tbl`) is
not under src and the spec gives no Kid Icarus vectors, so the codec is the
`enc` parameter: the external string-codec collaborator of the spec,
mapping a character to its 6-bit code. -/
def kiDecode (enc : Char → Option Nat) (t : List Char) : Except MetroidErr (List Bool) :=
  let cleaned := removeSpaces (trimWs t)
  if cleaned.length ≠ 24 then .error .wrongLength
  else
    match mapOpt enc cleaned with
    | none => .error .codecErr
    | some codes =>
      let bs := listJoin (codes.map (natToBitsLE 6))
      let data := bs.take 136
      let stored := bitsLEtoNat (bs.drop 136)
      if kiChecksum data ≠ stored then .error .checksumFailure
      else .ok data

instance {ε α : Type} [DecidableEq ε] [DecidableEq α] :
    DecidableEq (Except ε α)
  | .error e, .error f =>
    match decEq e f with
    | .isTrue h => .isTrue (congrArg Except.error h)
    | .isFalse h => .isFalse (fun c => h (Except.error.inj c))
  | .error _, .ok _ => .isFalse Except.noConfusion
  | .ok _, .error _ => .isFalse Except.noConfusion
  | .ok a, .ok b =>
    match decEq a b with
    | .isTrue h => .isTrue (congrArg Except.ok h)
    | .isFalse h => .isFalse (fun c => h (Except.ok.inj c))

/-! ## The combinatorial-cell codec (Mega Man 2) -/

/-- `MM2Boss`: a boss name with its alive and dead cell codes. -/
structure MM2Boss where
  name : String
  alive : Int
  dead : Int
  deriving DecidableEq, Repr

/-- Modelled from the spec: the boss schema file (`game/mm2.tsv`) is not
under src.  The alive-code set and the dead-code set are forced by the spec's
two concrete vectors (all-alive and all-dead); the per-boss *pairing* of an
alive code with a dead code is not determined by the spec, so the bosses are
named generically and paired in sorted order.  Every claim settled below is
independent of the pairing. -/
def mm2Bosses : List MM2Boss :=
  [⟨"boss1", 4, 1⟩, ⟨"boss2", 7, 3⟩, ⟨"boss3", 8, 5⟩, ⟨"boss4", 11, 9⟩,
   ⟨"boss5", 14, 10⟩, ⟨"boss6", 15, 12⟩, ⟨"boss7", 16, 17⟩, ⟨"boss8", 18, 19⟩]

/-- Errors of the combinatorial-cell codec: `InvalidPassword(msg)`,
`ValueError` (from `cell2int` / `int()`), and `KeyError` (dict lookup). -/
inductive MM2Err where
  | invalid (msg : String)
  | valueErr
  | keyErr (k : String)
  deriving DecidableEq, Repr

/-- Python `password.split(" ")`: split on every single space. -/
def splitOnSpace : List Char → List (List Char)
  | [] => [[]]
  | c :: rest =>
    let r := splitOnSpace rest
    if c = ' ' then [] :: r
    else
      match r with
      | h :: t => (c :: h) :: t
      | [] => [[c]]

/-- `MM2Password.cell2int`: a cell must be a letter-digit pair; its value is
`(ord(row) - ord('A')) * 5 + (int(col) - 1)`. -/
def cell2int : List Char → Except MM2Err Int
  | [row, col] =>
    if col.isDigit then
      .ok (((row.toNat : Int) - 65) * 5 + (((col.toNat : Int) - 48) - 1))
    else .error .valueErr
  | _ => .error .valueErr

/-- `MM2Password.int2cell`: `ascii_uppercase[i // 5] + str(i % 5 + 1)`.
Python floor division and modulus are `Int.fdiv`/`Int.fmod`; a negative
sequence index down to `-26` wraps around, any other out-of-range index
raises (`none`). -/
def int2cell (i : Int) : Option (List Char) :=
  let q := Int.fdiv i 5
  let r := Int.fmod i 5
  let idx := if q < 0 then q + 26 else q
  if 0 ≤ idx ∧ idx < 26 then
    some [Char.ofNat ('A'.toNat + idx.toNat), Char.ofNat ('0'.toNat + (r + 1).toNat)]
  else none

/-- `(code - 5 - self.tanks) % 20` (Python `%`, so `Int.emod`). -/
def normCode (tanks code : Int) : Int := (code - 5 - tanks) % 20

/-- `[f x for x in l]` where `f` may raise (propagate the first error), as
`sorted(cell2int(cell) for cell in password.split(" "))` evaluates the
conversions. -/
def mapExcept (f : α → Except ε β) : List α → Except ε (List β)
  | [] => .ok []
  | a :: l =>
    match f a with
    | .error e => .error e
    | .ok b => (mapExcept f l).map (b :: ·)

/-- The boss loop of `MM2Password._load_password`: each boss must match
exactly one of its codes in the normalized code list; the resulting
entries `(name, state)` land in the `defeated` dict in boss order (the dict
is pre-populated with every boss name).  States are stored through
`__setitem__`, which coerces booleans with `int()`, hence `0`/`1`. -/
def bossStates (ns : List Int) : List MM2Boss → Except MM2Err (List (String × Int))
  | [] => .ok []
  | b :: bs =>
    if b.alive ∈ ns ∧ b.dead ∈ ns then
      .error (.invalid (b.name ++ " is schrodinger's boss"))
    else if b.alive ∈ ns then (bossStates ns bs).map ((b.name, 0) :: ·)
    else if b.dead ∈ ns then (bossStates ns bs).map ((b.name, 1) :: ·)
    else .error (.invalid ("No state cell for " ++ b.name))

/-- The state of an `MM2Password`: the tank count and the `defeated` dict
(an insertion-ordered association list, as a Python dict). -/
structure MM2Pw where
  tanks : Int
  defeated : List (String × Int)
  deriving DecidableEq, Repr

/-- Sorting used for `sorted(...)` on integers. -/
def sortInt (l : List Int) : List Int := l.insertionSort (· ≤ ·)

/-- `MM2Password._load_password`, together with the construction wrapper:
split into cells, convert and sort, check the count and the tank cell,
normalize the remaining codes and resolve every boss. -/
def mm2Decode (t : List Char) : Except MM2Err MM2Pw :=
  match mapExcept cell2int (splitOnSpace t) with
  | .error e => .error e
  | .ok ints =>
    let codes := sortInt ints
    if codes.length ≠ 9 then .error (.invalid "Wrong length")
    else
      match codes with
      | [] => .error (.invalid "Wrong length")
      | c0 :: rest =>
        if c0 > 4 then .error (.invalid "Tank cell missing")
        else
          match bossStates (rest.map (normCode c0)) mm2Bosses with
          | .error e => .error e
          | .ok d => .ok ⟨c0, d⟩

/-- `MM2Password._set_defaults` (the password-less constructor): zero tanks,
every boss alive. -/
def mm2Default : MM2Pw :=
  ⟨0, mm2Bosses.map (fun b => (b.name, 0))⟩

/-- Python dict lookup `d[k]` on the association list. -/
def lookupA (l : List (String × Int)) (k : String) : Option Int :=
  match l with
  | [] => none
  | (k', v) :: rest => if k' = k then some v else lookupA rest k

/-- Python dict assignment `d[k] = v`: update in place if the key exists,
append otherwise. -/
def dictInsert (l : List (String × Int)) (k : String) (v : Int) : List (String × Int) :=
  match l with
  | [] => [(k, v)]
  | (k', v') :: rest => if k' = k then (k', v) :: rest else (k', v') :: dictInsert rest k v

/-- `MM2Password.__getitem__`: `tanks` or a `defeated` dict lookup (a missing
key is a `KeyError`). -/
def mm2GetItem (s : MM2Pw) (k : String) : Except MM2Err Int :=
  if k = "tanks" then .ok s.tanks
  else
    match lookupA s.defeated k with
    | some v => .ok v
    | none => .error (.keyErr k)

/-- `MM2Password.__setitem__`: `tanks` or a `defeated` dict assignment — an
unknown key is *created*, never rejected. -/
def mm2SetItem (s : MM2Pw) (k : String) (v : Int) : MM2Pw :=
  if k = "tanks" then { s with tanks := v }
  else { s with defeated := dictInsert s.defeated k v }

/-- A canonical cell: letter `A`–`E`, digit `1`–`5` (the 25 cells of the
password grid). -/
def validCell (c : List Char) : Prop :=
  match c with
  | [r, d] => r ∈ ['A', 'B', 'C', 'D', 'E'] ∧ d ∈ ['1', '2', '3', '4', '5']
  | _ => False

instance : DecidablePred validCell
  | [] => isFalse (fun h => h)
  | [_] => isFalse (fun h => h)
  | [_, _] => instDecidableAnd
  | _ :: _ :: _ :: _ => isFalse (fun h => h)

/-- The integer value of a two-character cell (total companion of
`cell2int`, used only on canonical cells). -/
def cellValue (c : List Char) : Int :=
  match c with
  | [r, d] => ((r.toNat : Int) - 65) * 5 + (((d.toNat : Int) - 48) - 1)
  | _ => 0

/-- The code a boss contributes on encode, as resolved by a successful
decode: its dead code when that code was present, else its alive code. -/
def pick (ns : List Int) (b : MM2Boss) : Int :=
  if b.dead ∈ ns then b.dead else b.alive

/-- The index of the boss owning a given alive/dead code (the sixteen codes
of the boss table are pairwise distinct). -/
def owner (x : Int) : Nat :=
  if x = 4 ∨ x = 1 then 0
  else if x = 7 ∨ x = 3 then 1
  else if x = 8 ∨ x = 5 then 2
  else if x = 11 ∨ x = 9 then 3
  else if x = 14 ∨ x = 10 then 4
  else if x = 15 ∨ x = 12 then 5
  else if x = 16 ∨ x = 17 then 6
  else 7

/-- The cell text of an in-range codepoint (total companion of `int2cell`). -/
def cellOf (v : Int) : List Char := (int2cell v).getD []

/-- String comparison used by Python `sorted` on cell strings:
lexicographic by code point. -/
def charListLeB : List Char → List Char → Bool
  | [], _ => true
  | _ :: _, [] => false
  | a :: as, b :: bs =>
    if a.toNat < b.toNat then true
    else if b.toNat < a.toNat then false
    else charListLeB as bs

/-- The proposition form of `charListLeB`. -/
def charListLe (a b : List Char) : Prop := charListLeB a b = true

instance : DecidableRel charListLe := fun a b => by
  unfold charListLe; infer_instance

/-- `sorted(...)` on cell strings. -/
def sortStr (l : List (List Char)) : List (List Char) := l.insertionSort charListLe

/-- `MM2Password.__str__`: the tank codepoint plus, per boss, its alive or
dead code re-obfuscated by the tank count; all nine converted to cells and
emitted sorted, space-separated.  `none` models the exceptions the source
can raise here (`KeyError` on the dict, `IndexError` in `int2cell`). -/
def mm2Str (s : MM2Pw) : Option (List Char) :=
  match mapOpt (fun b =>
      (lookupA s.defeated b.name).map (fun v =>
        ((if v ≠ 0 then b.dead else b.alive) + s.tanks) % 20 + 5)) mm2Bosses with
  | none => none
  | some codes =>
    match mapOpt int2cell (s.tanks :: codes) with
    | none => none
    | some strs => some (joinSpace (sortStr strs))

/-! ## The digit-checksum codec (Solar Jetman) -/

/-- The fixed 16-symbol alphabet of `SolarJetmanPassword`. -/
def sjCharset : List Char := ("BDGHKLMNPQRTVWXZ").data

/-- The state of a `SolarJetmanPassword`. -/
structure SJPw where
  level : Nat
  score : Nat
  ship : Nat
  lives : Nat
  map : Nat
  supermap : Nat
  thrusters : Nat
  shields : Nat
  deriving DecidableEq, Repr

/-- The field names of the digit-checksum codec, in iteration order. -/
def sjFields : List String :=
  ["level", "score", "ship", "lives", "map", "supermap", "thrusters", "shields"]

/-- Errors of the digit-checksum codec: `ValueError` from
`charset.index(c)` and `AttributeError` from attribute access.  (The
`raise KeyError` in `__setitem__` is unreachable — see `sjSetItem`.) -/
inductive SJErr where
  | valueErr
  | attrErr (k : String)
  deriving DecidableEq, Repr

/-- `SolarJetmanPassword.__init__`: every character of the password is looked
up in the charset (`charset.index(c)` raises `ValueError` when absent) — and
the resulting values are then discarded; the state is always the all-zero
default.  A missing password defaults to `'BBBBBBBBBBBB'`. -/
def sjInit (password : Option (List Char)) : Except SJErr SJPw :=
  let pw := password.getD ("BBBBBBBBBBBB").data
  match mapOpt (fun c => sjCharset.findIdx? (· == c)) pw with
  | none => .error .valueErr
  | some _ => .ok ⟨0, 0, 0, 0, 0, 0, 0, 0⟩

/-- `SolarJetmanPassword.scoredigit(i)`: decimal digit `i` of the score,
least significant first. -/
def scoredigit (s : SJPw) (i : Nat) : Nat := s.score / 10 ^ i % 10

/-- `SolarJetmanPassword.codepoints`: the fixed 12-digit layout with the two
interleaved checksum nibbles. -/
def sjCodepoints (s : SJPw) : List Nat :=
  let cp0 := s.lives
  let cp1 := scoredigit s 0
  let cp2 := s.level / 4
  let cp4 := scoredigit s 2
  let cp5 := scoredigit s 1
  let cp6 := scoredigit s 3
  let cp7 := scoredigit s 4
  let cp8 := s.level % 4 * 4 ||| s.map * 2 ||| s.supermap
  let cp10 := s.ship * 4 ||| s.shields * 2 ||| s.thrusters
  let cp11 := scoredigit s 5
  let chk1 := ((cp0 ^^^ cp1) + cp2 ^^^ cp4) + cp5
  let chk2 := ((cp6 ^^^ cp7) + cp8 ^^^ cp10) + cp11
  let chk2 := chk2 + (if chk1 ≥ 16 then 1 else 0)
  let chk1 := chk1 + chk2 / 16
  [cp0, cp1, cp2, chk1 % 16, cp4, cp5, cp6, cp7, cp8, chk2 % 16, cp10, cp11]

/-- `SolarJetmanPassword.__str__`: map every codepoint through the fixed
alphabet. -/
def sjStr (s : SJPw) : Option (List Char) :=
  mapOpt (fun cp => sjCharset.get? cp) (sjCodepoints s)

/-- Read one of the eight data fields set in `__init__`, if `k` names one. -/
def sjFieldGet (s : SJPw) (k : String) : Option Nat :=
  if k = "level" then some s.level
  else if k = "score" then some s.score
  else if k = "ship" then some s.ship
  else if k = "lives" then some s.lives
  else if k = "map" then some s.map
  else if k = "supermap" then some s.supermap
  else if k = "thrusters" then some s.thrusters
  else if k = "shields" then some s.shields
  else none

/-- Write one of the eight data fields, if `k` names one. -/
def sjFieldSet (s : SJPw) (k : String) (v : Nat) : Option SJPw :=
  if k = "level" then some { s with level := v }
  else if k = "score" then some { s with score := v }
  else if k = "ship" then some { s with ship := v }
  else if k = "lives" then some { s with lives := v }
  else if k = "map" then some { s with map := v }
  else if k = "supermap" then some { s with supermap := v }
  else if k = "thrusters" then some { s with thrusters := v }
  else if k = "shields" then some { s with shields := v }
  else none

/-- The non-field attribute names a `SolarJetmanPassword` instance exposes,
as written in the source class bodies: its own class attributes and methods,
those of `Password`, and the `Mapping` mixin methods.  (The `codepoints`
property is handled separately in `sjGetAttr`/`sjSetAttr`, being a data
descriptor.  Python's implicit double-underscore attributes behave like
these class attributes and are not enumerated; no statement below touches
them.) -/
def sjClassAttrs : List String :=
  ["charset", "defaultpw", "gid", "scoredigit", "_games", "default",
   "make", "supported_games", "load", "dump", "keys", "items", "values", "get"]

/-- A value produced by `getattr` on a `SolarJetmanPassword`: either a data
field's integer, or some non-field attribute (a class attribute, method or
the `codepoints` property value), which item access passes through
unchanged. -/
inductive SJVal where
  | num (n : Nat)
  | other (name : String)
  deriving DecidableEq, Repr

/-- A `SolarJetmanPassword` instance as attribute access sees it: the eight
data fields set in `__init__`, plus any instance attributes created later by
`setattr` with a non-field name (the rest of the instance `__dict__`). -/
structure SJObj where
  pw : SJPw
  shadow : List (String × Nat)
  deriving DecidableEq, Repr

/-- Lookup in the `shadow` part of the instance `__dict__`. -/
def lookupAN (l : List (String × Nat)) (k : String) : Option Nat :=
  match l with
  | [] => none
  | (k', v) :: rest => if k' = k then some v else lookupAN rest k

/-- Assignment into the `shadow` part of the instance `__dict__`. -/
def dictInsertN (l : List (String × Nat)) (k : String) (v : Nat) : List (String × Nat) :=
  match l with
  | [] => [(k, v)]
  | (k', v') :: rest =>
    if k' = k then (k', v) :: rest else (k', v') :: dictInsertN rest k v

/-- `getattr(self, k)`: the `codepoints` property (a data descriptor) takes
precedence, then the instance `__dict__` (fields, then shadowing entries),
then the class attributes; any other name raises `AttributeError`. -/
def sjGetAttr (o : SJObj) (k : String) : Except SJErr SJVal :=
  if k = "codepoints" then .ok (.other k)
  else
    match sjFieldGet o.pw k with
    | some n => .ok (.num n)
    | none =>
      match lookupAN o.shadow k with
      | some n => .ok (.num n)
      | none =>
        if k ∈ sjClassAttrs then .ok (.other k) else .error (.attrErr k)

/-- `setattr(self, k, v)`: a field name updates the field; `codepoints` is a
property without a setter, so assigning it raises `AttributeError`; any
other name silently creates (or updates) an instance attribute shadowing
the class. -/
def sjSetAttr (o : SJObj) (k : String) (v : Nat) : Except SJErr SJObj :=
  match sjFieldSet o.pw k v with
  | some pw2 => .ok { o with pw := pw2 }
  | none =>
    if k = "codepoints" then .error (.attrErr k)
    else .ok { o with shadow := dictInsertN o.shadow k v }

/-- `SolarJetmanPassword.__getitem__`: bare `getattr(self, k)` — any
attribute-named key is returned without a field check. -/
def sjGetItem (o : SJObj) (k : String) : Except SJErr SJVal :=
  sjGetAttr o k

/-- `SolarJetmanPassword.__setitem__`: `if k in self` goes through the
`Mapping.__contains__` mixin, which evaluates `self[k]` (= `getattr`)
catching only `KeyError`; `getattr` never raises `KeyError`, so an unknown
key's `AttributeError` propagates and the source's `raise KeyError` branch
is unreachable, while any attribute-named key proceeds to
`setattr(self, k, int(v))`. -/
def sjSetItem (o : SJObj) (k : String) (v : Nat) : Except SJErr SJObj :=
  match sjGetAttr o k with
  | .error e => .error e
  | .ok _ => sjSetAttr o k v

/-! ## The generic bit structure (`Structure`) -/

/-- A password data field (`Field` of `password.py`): bit offset, bit width
and the numeric offset `mod`. -/
structure PwField where
  fid : String
  offset : Nat
  width : Nat
  mod : Int
  deriving DecidableEq, Repr

/-- Errors of generic field access: `AttributeError("No such field")` and
the `ValueError`/`OverflowError` that `int2ba` raises for a value not
representable in `width` unsigned bits. -/
inductive FieldErr where
  | noSuchField (name : String)
  | rangeErr
  deriving DecidableEq, Repr

/-- A `Structure`: its field table and its little-endian bit buffer. -/
structure BitStruct where
  fields : List PwField
  data : List Bool
  deriving DecidableEq, Repr

/-- `name in self.fields` / `self.fields[name]`. -/
def lookupField (fields : List PwField) (name : String) : Option PwField :=
  match fields with
  | [] => none
  | f :: rest => if f.fid = name then some f else lookupField rest name

/-- `Structure.__getattr__`: `ba2int(self.data[field.slice]) + field.mod`,
`AttributeError` for an unknown field. -/
def structGet (st : BitStruct) (name : String) : Except FieldErr Int :=
  match lookupField st.fields name with
  | none => .error (.noSuchField name)
  | some f => .ok ((bitsLEtoNat ((st.data.drop f.offset).take f.width) : Int) + f.mod)

/-- `Structure.__setattr__`: write `value - field.mod` into the field's slice
as a `width`-bit unsigned integer; `int2ba` fails unless
`0 <= value - mod < 2 ^ width`; `AttributeError` for an unknown field. -/
def structSet (st : BitStruct) (name : String) (value : Int) : Except FieldErr BitStruct :=
  match lookupField st.fields name with
  | none => .error (.noSuchField name)
  | some f =>
    let v := value - f.mod
    if 0 ≤ v ∧ v < 2 ^ f.width then
      .ok { st with data :=
        st.data.take f.offset ++ natToBitsLE f.width v.toNat
          ++ st.data.drop (f.offset + f.width) }
    else .error .rangeErr

set_option maxRecDepth 10000

/-! ## Helper lemmas -/

theorem mapOpt_eq_some_of_forall {f : α → Option β} {g : α → β} :
    ∀ {l : List α}, (∀ a ∈ l, f a = some (g a)) → mapOpt f l = some (l.map g)
  | [], _ => rfl
  | a :: l, h => by
    have ha := h a (List.mem_cons_self a l)
    have hl := mapOpt_eq_some_of_forall (l := l) (fun x hx => h x (List.mem_cons_of_mem a hx))
    simp [mapOpt, ha, hl]

theorem mapOpt_isSome_of_forall {f : α → Option β} :
    ∀ {l : List α}, (∀ a ∈ l, (f a).isSome) → ∃ bs, mapOpt f l = some bs
  | [], _ => ⟨[], rfl⟩
  | a :: l, h => by
    obtain ⟨b, hb⟩ := Option.isSome_iff_exists.mp (h a (List.mem_cons_self a l))
    obtain ⟨bs, hbs⟩ :=
      mapOpt_isSome_of_forall (l := l) (fun x hx => h x (List.mem_cons_of_mem a hx))
    exact ⟨b :: bs, by simp [mapOpt, hb, hbs]⟩

theorem lookupA_dictInsert (l : List (String × Int)) (k : String) (v : Int) :
    lookupA (dictInsert l k v) k = some v := by
  induction l with
  | nil => simp [dictInsert, lookupA]
  | cons p rest ih =>
    by_cases h : p.1 = k <;> simp [dictInsert, lookupA, h, ih]

/-! ## Claim theorems (first group) -/

/-- C1: for the structured-checksum (Metroid) codec, decoding each of the
three known literal password strings and re-stringifying yields the same
text, and stringifying a default-constructed password yields
`000000 000000 000000 000000`. -/
theorem metroid_roundtrip_vectors :
    (metroidDecode ("000000 000000 000000 000000").data).map metroidStr
        = .ok (some ("000000 000000 000000 000000").data)
      ∧ (metroidDecode ("0G0000 000000 400000 00000H").data).map metroidStr
        = .ok (some ("0G0000 000000 400000 00000H").data)
      ∧ (metroidDecode ("GGW01G 000020 VsG000 00002n").data).map metroidStr
        = .ok (some ("GGW01G 000020 VsG000 00002n").data)
      ∧ (metroidInit none).map metroidStr
        = .ok (some ("000000 000000 000000 000000").data) := by
  refine ⟨by decide, by decide, by decide, by decide⟩

/-- C4: the bit-order flip utility, as written
(`index // 8 + (7 - index % 8)`), violates the specified properties: at
index 8 it returns 8, whose bit offsets sum to 0 rather than 7, and at
index 9 it is neither self-inverse nor byte-preserving.  (The repository's
own tests, `tests/test_util.py`, assert the specified properties for every
index below 100.) -/
theorem flip_idx_bitorder_bug :
    flip_idx_bitorder 8 = 8
      ∧ 8 % 8 + flip_idx_bitorder 8 % 8 ≠ 7
      ∧ flip_idx_bitorder (flip_idx_bitorder 9) ≠ 9
      ∧ flip_idx_bitorder 9 / 8 ≠ 9 / 8 := by decide

/-- C9: the cell-to-integer mapping is a bijection over `[0, 25)`:
`cell2int (int2cell i) = i` for every `i < 25`, and
`int2cell (cell2int c) = c` for every valid two-character cell
(letter `A`–`E`, digit `1`–`5`). -/
theorem cell_int_bijection :
    (∀ i : Nat, i < 25 → (int2cell i).map cell2int = some (.ok i))
      ∧ ∀ r ∈ ['A', 'B', 'C', 'D', 'E'], ∀ d ∈ ['1', '2', '3', '4', '5'],
          (cell2int [r, d]).map int2cell = .ok (some [r, d]) := by
  refine ⟨by decide, by decide⟩

/-- Witness for C9 at `i = 7` and cell `C2`. -/
theorem cell_int_bijection_witness :
    (int2cell (7 : Nat)).map cell2int = some (.ok 7)
      ∧ (cell2int ['C', '2']).map int2cell = .ok (some ['C', '2']) :=
  ⟨cell_int_bijection.1 7 (by decide),
   cell_int_bijection.2 'C' (by decide) '2' (by decide)⟩

/-- C10: constructing a digit-checksum (Solar Jetman) password from any text
over its 16-symbol alphabet succeeds, discards the text, and yields the
default all-zero state, so the result stringifies exactly like a
default-constructed password (to `BBBBBBBBBBBB`). -/
theorem sj_init_discards_text (t : List Char) (h : ∀ c ∈ t, c ∈ sjCharset) :
    sjInit (some t) = sjInit none
      ∧ (sjInit (some t)).map sjStr = .ok (some ("BBBBBBBBBBBB").data) := by
  have hsome : ∀ c ∈ t, (sjCharset.findIdx? (· == c)).isSome := by
    intro c hc
    rw [List.findIdx?_isSome]
    exact List.any_eq_true.mpr ⟨c, h c hc, by simp⟩
  obtain ⟨bs, hbs⟩ := mapOpt_isSome_of_forall hsome
  have hinit : sjInit (some t) = .ok ⟨0, 0, 0, 0, 0, 0, 0, 0⟩ := by
    unfold sjInit
    simp only [Option.getD]
    rw [hbs]
  rw [hinit]
  exact ⟨by decide, by decide⟩

/-- Witness for C10 at the concrete text `DGHKLMNPQRTV`. -/
theorem sj_init_discards_text_witness :
    sjInit (some ("DGHKLMNPQRTV").data) = sjInit none
      ∧ (sjInit (some ("DGHKLMNPQRTV").data)).map sjStr
        = .ok (some ("BBBBBBBBBBBB").data) :=
  sj_init_discards_text ("DGHKLMNPQRTV").data (by decide)

/-- C5 (amended): setting a bit-structure field to a value `v` with
`v - mod` outside `[0, 2 ^ width)` fails; getting or setting an unknown
field id fails with a no-such-field error on the bit structure and on the
combinatorial-cell getter.  Neither setter-side clause survives: the
combinatorial-cell setter silently creates (or updates) the entry instead
of failing, and the digit-checksum codec's bracket access is bare attribute
access — a key naming no attribute fails with `AttributeError` (on set it
propagates out of the containment check, whose `KeyError` branch is
unreachable), while a non-field attribute name such as `charset` is read
without error and written as a silently created shadowing instance
attribute. -/
theorem field_access_amended :
    (∀ (st : BitStruct) (name : String) (f : PwField) (v : Int),
        lookupField st.fields name = some f →
        ¬(0 ≤ v - f.mod ∧ v - f.mod < 2 ^ f.width) →
        structSet st name v = .error .rangeErr)
      ∧ (∀ (st : BitStruct) (name : String) (v : Int),
          lookupField st.fields name = none →
          structSet st name v = .error (.noSuchField name)
            ∧ structGet st name = .error (.noSuchField name))
      ∧ (∀ (s : MM2Pw) (k : String), k ≠ "tanks" → lookupA s.defeated k = none →
          mm2GetItem s k = .error (.keyErr k))
      ∧ (∀ (o : SJObj) (k : String) (v : Nat),
          sjGetAttr o k = .error (.attrErr k) →
          sjGetItem o k = .error (.attrErr k)
            ∧ sjSetItem o k v = .error (.attrErr k))
      ∧ (∀ (s : SJPw) (v : Nat),
          sjGetItem ⟨s, []⟩ "charset" = .ok (.other "charset")
            ∧ sjSetItem ⟨s, []⟩ "charset" v = .ok ⟨s, [("charset", v)]⟩
            ∧ sjGetItem ⟨s, [("charset", v)]⟩ "charset" = .ok (.num v))
      ∧ (∀ (s : MM2Pw) (k : String) (v : Int), k ≠ "tanks" →
          lookupA (mm2SetItem s k v).defeated k = some v) := by
  refine ⟨?_, ?_, ?_, ?_, ?_, ?_⟩
  · intro st name f v hf hv
    simp only [structSet, hf]
    rw [if_neg hv]
  · intro st name v hf
    constructor <;> simp [structSet, structGet, hf]
  · intro s k hk hl
    simp [mm2GetItem, hk, hl]
  · intro o k v herr
    refine ⟨herr, ?_⟩
    simp [sjSetItem, herr]
  · intro s v
    refine ⟨?_, ?_, ?_⟩
    · simp [sjGetItem, sjGetAttr, sjFieldGet, lookupAN, sjClassAttrs]
    · simp [sjSetItem, sjSetAttr, sjGetItem, sjGetAttr, sjFieldGet, sjFieldSet,
        lookupAN, dictInsertN, sjClassAttrs]
    · simp [sjGetItem, sjGetAttr, sjFieldGet, lookupAN]
  · intro s k v hk
    simp [mm2SetItem, hk, lookupA_dictInsert]

/-- Witness for C5: concrete failures on the bit structure and the
combinatorial-cell getter (field `f` of width 3 with numeric offset 2,
value 10 out of range; unknown name `bogus`), the digit-checksum codec
failing with `AttributeError` on `bogus` for both operations yet silently
reading and shadow-writing the non-field attribute `charset`, and the
combinatorial-cell setter silently creating `bogus`. -/
theorem field_access_amended_witness :
    structSet ⟨[⟨"f", 0, 3, 2⟩], [false, false, false]⟩ "f" 10 = .error .rangeErr
      ∧ structSet ⟨[⟨"f", 0, 3, 2⟩], [false, false, false]⟩ "bogus" 1
          = .error (.noSuchField "bogus")
      ∧ structGet ⟨[⟨"f", 0, 3, 2⟩], [false, false, false]⟩ "bogus"
          = .error (.noSuchField "bogus")
      ∧ mm2GetItem mm2Default "bogus" = .error (.keyErr "bogus")
      ∧ sjGetItem ⟨⟨0, 0, 0, 0, 0, 0, 0, 0⟩, []⟩ "bogus" = .error (.attrErr "bogus")
      ∧ sjSetItem ⟨⟨0, 0, 0, 0, 0, 0, 0, 0⟩, []⟩ "bogus" 1 = .error (.attrErr "bogus")
      ∧ sjGetItem ⟨⟨0, 0, 0, 0, 0, 0, 0, 0⟩, []⟩ "charset" = .ok (.other "charset")
      ∧ sjSetItem ⟨⟨0, 0, 0, 0, 0, 0, 0, 0⟩, []⟩ "charset" 5
          = .ok ⟨⟨0, 0, 0, 0, 0, 0, 0, 0⟩, [("charset", 5)]⟩
      ∧ sjGetItem ⟨⟨0, 0, 0, 0, 0, 0, 0, 0⟩, [("charset", 5)]⟩ "charset"
          = .ok (.num 5)
      ∧ lookupA (mm2SetItem mm2Default "bogus" 1).defeated "bogus" = some 1 :=
  ⟨field_access_amended.1 ⟨[⟨"f", 0, 3, 2⟩], [false, false, false]⟩ "f"
      ⟨"f", 0, 3, 2⟩ 10 (by decide) (by decide),
   (field_access_amended.2.1 ⟨[⟨"f", 0, 3, 2⟩], [false, false, false]⟩ "bogus" 1
      (by decide)).1,
   (field_access_amended.2.1 ⟨[⟨"f", 0, 3, 2⟩], [false, false, false]⟩ "bogus" 1
      (by decide)).2,
   field_access_amended.2.2.1 mm2Default "bogus" (by decide) (by decide),
   (field_access_amended.2.2.2.1 ⟨⟨0, 0, 0, 0, 0, 0, 0, 0⟩, []⟩ "bogus" 1
      (by decide)).1,
   (field_access_amended.2.2.2.1 ⟨⟨0, 0, 0, 0, 0, 0, 0, 0⟩, []⟩ "bogus" 1
      (by decide)).2,
   (field_access_amended.2.2.2.2.1 ⟨0, 0, 0, 0, 0, 0, 0, 0⟩ 5).1,
   (field_access_amended.2.2.2.2.1 ⟨0, 0, 0, 0, 0, 0, 0, 0⟩ 5).2.1,
   (field_access_amended.2.2.2.2.1 ⟨0, 0, 0, 0, 0, 0, 0, 0⟩ 5).2.2,
   field_access_amended.2.2.2.2.2 mm2Default "bogus" 1 (by decide)⟩

/-- C5 counterexample: as stated, the claim is false — setting the unknown
field id `bogus` on a default combinatorial-cell password does not fail: it
silently appends a new `("bogus", 1)` entry to the `defeated` mapping. -/
theorem mm2_setitem_silent_creation :
    (mm2SetItem mm2Default "bogus" 1).defeated
        = mm2Default.defeated ++ [("bogus", 1)]
      ∧ lookupA (mm2SetItem mm2Default "bogus" 1).defeated "bogus" = some 1 := by
  refine ⟨by decide, by decide⟩

theorem filter_dropWhile_comm (p q : α → Bool) (hpq : ∀ a, p a = false → q a = true) :
    ∀ l : List α, (l.dropWhile q).filter p = (l.filter p).dropWhile q
  | [] => rfl
  | c :: rest => by
    cases hq : q c with
    | true =>
      cases hpc : p c with
      | true =>
        simp [List.dropWhile_cons, List.filter_cons, hq, hpc,
          filter_dropWhile_comm p q hpq rest]
      | false =>
        simp [List.dropWhile_cons, List.filter_cons, hq, hpc,
          filter_dropWhile_comm p q hpq rest]
    | false =>
      have hpc : p c = true := by
        cases hpc : p c
        · exact absurd (hpq c hpc) (by simp [hq])
        · rfl
      simp [List.dropWhile_cons, List.filter_cons, hq, hpc]

theorem removeSpaces_trimWs_comm (X : List Char) :
    removeSpaces (trimWs X) = trimWs (removeSpaces X) := by
  have hpq : ∀ c : Char, (!(c == ' ')) = false → isWs c = true := by
    intro c hc
    have hc' : c = ' ' := by
      cases h : c == ' '
      · rw [h] at hc; cases hc
      · exact beq_iff_eq.mp h
    subst hc'; rfl
  have comm := filter_dropWhile_comm (fun c => !(c == ' ')) isWs hpq
  show List.filter _ (((X.dropWhile isWs).reverse.dropWhile isWs).reverse) = _
  rw [List.filter_reverse, comm, List.filter_reverse, comm]
  rfl

theorem removeSpaces_idem (l : List Char) :
    removeSpaces (removeSpaces l) = removeSpaces l := by
  show (l.filter _).filter _ = l.filter _
  rw [List.filter_filter]
  exact List.filter_congr (fun a _ => by cases h : a == ' ' <;> simp [h])

theorem removeSpaces_trimWs_removeSpaces (l : List Char) :
    removeSpaces (trimWs (removeSpaces l)) = removeSpaces (trimWs l) := by
  rw [removeSpaces_trimWs_comm, removeSpaces_idem, ← removeSpaces_trimWs_comm]

/-- C8: structured-checksum decode — for both family variants (Metroid and
Kid Icarus, the latter over any external text codec) — strips surrounding
whitespace and internal spaces, then fails with the wrong-length error
exactly when the remaining text is not 24 characters; and removing the
internal spaces from the input does not change the result of decoding. -/
theorem structured_length_spaces (t : List Char) :
    (metroidDecode t = .error .wrongLength ↔ (removeSpaces (trimWs t)).length ≠ 24)
      ∧ metroidDecode (removeSpaces t) = metroidDecode t
      ∧ ∀ enc : Char → Option Nat,
          (kiDecode enc t = .error .wrongLength
              ↔ (removeSpaces (trimWs t)).length ≠ 24)
            ∧ kiDecode enc (removeSpaces t) = kiDecode enc t := by
  refine ⟨?_, ?_, fun enc => ⟨?_, ?_⟩⟩
  · by_cases h : (removeSpaces (trimWs t)).length = 24
    · simp only [metroidDecode, h]
      simp only [ne_eq, not_true_eq_false, if_false]
      constructor
      · intro hcontra
        split at hcontra
        · cases hcontra
        · split at hcontra <;> cases hcontra
      · intro hcontra
        exact hcontra.elim
    · simp [metroidDecode, h]
  · show metroidDecode (removeSpaces t) = metroidDecode t
    simp only [metroidDecode]
    rw [removeSpaces_trimWs_removeSpaces]
  · by_cases h : (removeSpaces (trimWs t)).length = 24
    · simp only [kiDecode, h]
      simp only [ne_eq, not_true_eq_false, if_false]
      constructor
      · intro hcontra
        split at hcontra
        · cases hcontra
        · split at hcontra <;> cases hcontra
      · intro hcontra
        exact hcontra.elim
    · simp [kiDecode, h]
  · show kiDecode enc (removeSpaces t) = kiDecode enc t
    simp only [kiDecode]
    rw [removeSpaces_trimWs_removeSpaces]

/-- C2: for the structured-checksum (Metroid) codec, the checksum of any
password state is `(sum of payload bytes + shift) mod 256`, and decoding a
well-formed 24-character text fails with the checksum error exactly when the
trailing checksum byte differs from the checksum recomputed from the
recovered payload and shift. -/
theorem metroid_checksum_spec :
    (∀ pw : MetroidPw,
        metroidChecksum pw = (byteSum (tobytesLE pw.data) + pw.shift) % 256)
      ∧ ∀ (t : List Char) (codes : List Nat),
          (removeSpaces (trimWs t)).length = 24 →
          mapOpt charToCode (removeSpaces (trimWs t)) = some codes →
          (metroidDecode t = .error .checksumFailure ↔
            bitsBEtoNat ((listJoin (codes.map (natToBitsBE 6))).drop 136)
              ≠ metroidChecksum
                  ⟨revChunks8 ((listJoin (codes.map (natToBitsBE 6))).take 128),
                   bitsBEtoNat (((listJoin (codes.map (natToBitsBE 6))).take 136).drop 128)⟩) := by
  refine ⟨fun pw => rfl, ?_⟩
  intro t codes hlen hmap
  simp only [metroidDecode, hlen, hmap]
  simp only [ne_eq, not_true_eq_false, if_false]
  by_cases hck :
      metroidChecksum
          ⟨revChunks8 ((listJoin (codes.map (natToBitsBE 6))).take 128),
           bitsBEtoNat (((listJoin (codes.map (natToBitsBE 6))).take 136).drop 128)⟩
        = bitsBEtoNat ((listJoin (codes.map (natToBitsBE 6))).drop 136)
  · simp [hck]
  · simp [hck, Ne.symm hck]

/-- Witness for C2 at the text `000000 000000 000000 000001`, whose stored
checksum byte is 1 while the recomputed checksum is 0. -/
theorem metroid_checksum_spec_witness :
    metroidChecksum ⟨List.replicate 128 false, 3⟩
        = (byteSum (tobytesLE (List.replicate 128 false)) + 3) % 256
      ∧ metroidDecode ("000000 000000 000000 000001").data = .error .checksumFailure :=
  ⟨metroid_checksum_spec.1 ⟨List.replicate 128 false, 3⟩,
   (metroid_checksum_spec.2 ("000000 000000 000000 000001").data
      (List.replicate 23 (0 : Nat) ++ [1]) (by decide) (by decide)).mpr (by decide)⟩

theorem byteSum_cons (x : Nat) (l : List Nat) : byteSum (x :: l) = x + byteSum l := rfl

theorem bitsLEtoNat_cons (b : Bool) (l : List Bool) :
    bitsLEtoNat (b :: l) = (if b then 1 else 0) + 2 * bitsLEtoNat l := rfl

theorem bitsLEtoNat_set (c : List Bool) (p : Nat) (hp : p < c.length) :
    (bitsLEtoNat (c.set p (!c.getD p false)) : Int)
      = bitsLEtoNat c + (if c.getD p false then -(2 ^ p) else 2 ^ p) := by
  induction c generalizing p with
  | nil => simp at hp
  | cons b rest ih =>
    cases p with
    | zero =>
      cases b <;> simp [bitsLEtoNat_cons] <;> push_cast <;> ring
    | succ p =>
      have hp' : p < rest.length := by simpa using hp
      have hrec := ih p hp'
      simp only [List.set_cons_succ, List.getD_cons_succ, bitsLEtoNat_cons]
      push_cast at hrec ⊢
      rw [hrec]
      split <;> split <;> ring

theorem chunkFuel_nil (n : Nat) : ∀ fuel : Nat, chunkFuel (α := α) n fuel [] = []
  | 0 => rfl
  | _ + 1 => rfl

theorem chunkFuel_congr (n : Nat) :
    ∀ (fuel fuel' : Nat) (l : List α), l.length ≤ fuel → l.length ≤ fuel' →
      chunkFuel n fuel l = chunkFuel n fuel' l := by
  intro fuel
  induction fuel with
  | zero =>
    intro fuel' l hl _
    have : l = [] := List.eq_nil_of_length_eq_zero (Nat.le_zero.mp hl)
    subst this
    rw [chunkFuel_nil, chunkFuel_nil]
  | succ f ih =>
    intro fuel' l hl hl'
    cases l with
    | nil => rw [chunkFuel_nil, chunkFuel_nil]
    | cons x xs =>
      cases fuel' with
      | zero => simp at hl'
      | succ f' =>
        show (x :: xs.take (n - 1)) :: chunkFuel n f (xs.drop (n - 1))
            = (x :: xs.take (n - 1)) :: chunkFuel n f' (xs.drop (n - 1))
        have hd : (xs.drop (n - 1)).length ≤ xs.length := by
          rw [List.length_drop]; omega
        have hxs : xs.length ≤ f := by simpa using hl
        have hxs' : xs.length ≤ f' := by simpa using hl'
        exact congrArg _ (ih f' _ (le_trans hd hxs) (le_trans hd hxs'))

theorem chunkList_cons (n : Nat) (x : α) (xs : List α) :
    chunkList n (x :: xs) = (x :: xs.take (n - 1)) :: chunkList n (xs.drop (n - 1)) := by
  show (x :: xs.take (n - 1)) :: chunkFuel n xs.length (xs.drop (n - 1)) = _
  refine congrArg _ (chunkFuel_congr n _ _ _ ?_ le_rfl)
  rw [List.length_drop]; omega

theorem chunkList8_eq (l : List Bool) (hl : l ≠ []) :
    chunkList 8 l = l.take 8 :: chunkList 8 (l.drop 8) := by
  match l with
  | x :: xs => rw [chunkList_cons]; rfl

theorem byteSum_tobytesLE_set (l : List Bool) (k : Nat) (hk : k < l.length) :
    (byteSum (tobytesLE (l.set k (!l.getD k false))) : Int)
      = byteSum (tobytesLE l)
          + (if l.getD k false then -(2 ^ (k % 8)) else 2 ^ (k % 8)) := by
  have hl : l ≠ [] := by
    intro h; subst h; simp at hk
  have hset_ne : l.set k (!l.getD k false) ≠ [] := by
    intro h
    have := congrArg List.length h
    simp at this
    subst this
    simp at hk
  rw [tobytesLE, tobytesLE, chunkList8_eq _ hset_ne, chunkList8_eq _ hl]
  simp only [List.map_cons, byteSum_cons]
  rcases Nat.lt_or_ge k 8 with h8 | h8
  · have htake : (l.set k (!l.getD k false)).take 8 = (l.take 8).set k (!l.getD k false) :=
      List.set_take ..
    have hdrop : (l.set k (!l.getD k false)).drop 8 = l.drop 8 := by
      rw [List.drop_set, if_pos h8]
    have hgetD : (l.take 8).getD k false = l.getD k false := by
      rw [List.getD_eq_getElem?_getD, List.getD_eq_getElem?_getD, List.getElem?_take,
        if_pos h8]
    have hklen : k < (l.take 8).length := by
      rw [List.length_take]; omega
    have hbit := bitsLEtoNat_set (l.take 8) k hklen
    rw [hgetD] at hbit
    rw [htake, hdrop]
    push_cast at hbit ⊢
    rw [hbit, Nat.mod_eq_of_lt h8]
    ring
  · have htake : (l.set k (!l.getD k false)).take 8 = l.take 8 := by
      rw [List.set_take, List.set_eq_of_length_le]
      rw [List.length_take]; omega
    have hdrop : (l.set k (!l.getD k false)).drop 8
        = (l.drop 8).set (k - 8) (!l.getD k false) := by
      rw [List.drop_set, if_neg (Nat.not_lt.mpr h8)]
    have hgetD : (l.drop 8).getD (k - 8) false = l.getD k false := by
      rw [List.getD_eq_getElem?_getD, List.getD_eq_getElem?_getD, List.getElem?_drop]
      congr 2
      omega
    have hklen : k - 8 < (l.drop 8).length := by
      rw [List.length_drop]; omega
    have hrec := byteSum_tobytesLE_set (l.drop 8) (k - 8) hklen
    rw [hgetD] at hrec
    simp only [tobytesLE] at hrec
    rw [htake, hdrop]
    push_cast at hrec ⊢
    rw [hrec]
    have hmod : (k - 8) % 8 = k % 8 := by omega
    rw [hmod]
    ring
termination_by l.length
decreasing_by
  rw [List.length_drop]
  have : 0 < l.length := List.length_pos.mpr hl
  omega

/-- C7: for the structured-checksum family, flipping any single payload bit
changes the checksum byte — with no exception: the per-byte delta is a power
of two below 256, which never cancels mod 256, for the shift-bearing
(Metroid) checksum and the shift-less (Kid Icarus) checksum alike. -/
theorem checksum_bit_sensitivity (data : List Bool) (shift k : Nat)
    (hk : k < data.length) :
    metroidChecksum ⟨data.set k (!data.getD k false), shift⟩
        ≠ metroidChecksum ⟨data, shift⟩
      ∧ kiChecksum (data.set k (!data.getD k false)) ≠ kiChecksum data := by
  have hδ := byteSum_tobytesLE_set data k hk
  have hdpos : (0 : Int) < 2 ^ (k % 8) := by positivity
  have hdsmall : (2 : Int) ^ (k % 8) ≤ 2 ^ 7 := by
    refine pow_le_pow_right₀ (by norm_num) ?_
    omega
  have main : ∀ sh : Nat,
      (byteSum (tobytesLE (data.set k (!data.getD k false))) + sh) % 256
        ≠ (byteSum (tobytesLE data) + sh) % 256 := by
    intro sh hEq
    set l' := data.set k (!data.getD k false) with hl'
    have hcast := congrArg (fun n : Nat => (n : Int)) hEq
    push_cast at hcast
    have hdvd : (256 : Int) ∣
        ((byteSum (tobytesLE data) : Int) + sh)
          - ((byteSum (tobytesLE l') : Int) + sh) :=
      Int.ModEq.dvd hcast
    have hdvd' : (256 : Int) ∣ 2 ^ (k % 8) := by
      cases hgd : data.getD k false <;> rw [hgd] at hδ
      · rw [if_neg (by decide : ¬(false = true))] at hδ
        rw [hδ] at hdvd
        have harith : ((byteSum (tobytesLE data) : Int) + sh)
            - (((byteSum (tobytesLE data) : Int) + 2 ^ (k % 8)) + sh)
              = -(2 ^ (k % 8)) := by ring
        rw [harith] at hdvd
        exact (dvd_neg.mp hdvd)
      · rw [if_pos rfl] at hδ
        rw [hδ] at hdvd
        have harith : ((byteSum (tobytesLE data) : Int) + sh)
            - (((byteSum (tobytesLE data) : Int) + -(2 ^ (k % 8))) + sh)
              = 2 ^ (k % 8) := by ring
        rw [harith] at hdvd
        exact hdvd
    have := Int.le_of_dvd hdpos hdvd'
    norm_num at hdsmall
    omega
  constructor
  · exact main shift
  · intro hEq
    apply main 0
    show (byteSum (tobytesLE (data.set k (!data.getD k false))) + 0) % 256
        = (byteSum (tobytesLE data) + 0) % 256
    simpa [kiChecksum] using hEq

/-- Witness for C7: flipping the single bit of the one-bit payload `[false]`
changes both checksums. -/
theorem checksum_bit_sensitivity_witness :
    metroidChecksum ⟨[false].set 0 (!(List.getD [false] 0 false)), 0⟩
        ≠ metroidChecksum ⟨[false], 0⟩
      ∧ kiChecksum ([false].set 0 (!(List.getD [false] 0 false))) ≠ kiChecksum [false] :=
  checksum_bit_sensitivity [false] 0 0 (by decide)

theorem mapExcept_eq_ok_of_forall {f : α → Except ε β} {g : α → β} :
    ∀ {l : List α}, (∀ a ∈ l, f a = .ok (g a)) → mapExcept f l = .ok (l.map g)
  | [], _ => rfl
  | a :: l, h => by
    have ha := h a (List.mem_cons_self a l)
    have hl := mapExcept_eq_ok_of_forall (l := l)
      (fun x hx => h x (List.mem_cons_of_mem a hx))
    simp [mapExcept, ha, hl, Except.map]

theorem bossStates_ok_imp (ns : List Int) :
    ∀ (l : List MM2Boss) (d : List (String × Int)), bossStates ns l = .ok d →
      (∀ b ∈ l, (b.alive ∈ ns ↔ b.dead ∉ ns))
        ∧ d = l.map (fun b => (b.name, if b.dead ∈ ns then 1 else 0)) := by
  intro l
  induction l with
  | nil =>
    intro d h
    refine ⟨by simp, ?_⟩
    have := Except.ok.inj (h : (Except.ok [] : Except MM2Err (List (String × Int))) = .ok d)
    simp [← this]
  | cons b bs ih =>
    intro d h
    by_cases hboth : b.alive ∈ ns ∧ b.dead ∈ ns
    · rw [bossStates, if_pos hboth] at h; cases h
    by_cases halive : b.alive ∈ ns
    · rw [bossStates, if_neg hboth, if_pos halive] at h
      cases hbs : bossStates ns bs with
      | error e => rw [hbs] at h; cases h
      | ok d' =>
        rw [hbs] at h
        simp only [Except.map] at h
        obtain ⟨hfor, hd'⟩ := ih d' hbs
        have hdeadout : b.dead ∉ ns := fun hdm => hboth ⟨halive, hdm⟩
        have hd : d = (b.name, 0) :: d' := (Except.ok.inj h).symm
        refine ⟨?_, ?_⟩
        · intro x hx
          rcases List.mem_cons.mp hx with rfl | hx'
          · exact iff_of_true halive hdeadout
          · exact hfor x hx'
        · rw [hd, hd', List.map_cons, if_neg hdeadout]
    by_cases hdead : b.dead ∈ ns
    · rw [bossStates, if_neg hboth, if_neg halive, if_pos hdead] at h
      cases hbs : bossStates ns bs with
      | error e => rw [hbs] at h; cases h
      | ok d' =>
        rw [hbs] at h
        simp only [Except.map] at h
        obtain ⟨hfor, hd'⟩ := ih d' hbs
        have hd : d = (b.name, 1) :: d' := (Except.ok.inj h).symm
        refine ⟨?_, ?_⟩
        · intro x hx
          rcases List.mem_cons.mp hx with rfl | hx'
          · exact iff_of_false halive (not_not_intro hdead)
          · exact hfor x hx'
        · rw [hd, hd', List.map_cons, if_pos hdead]
    · rw [bossStates, if_neg hboth, if_neg halive, if_neg hdead] at h; cases h

theorem bossStates_err_shape (ns : List Int) :
    ∀ (l : List MM2Boss) (e : MM2Err), bossStates ns l = .error e →
      ∃ m, e = .invalid m := by
  intro l
  induction l with
  | nil => intro e h; cases h
  | cons b bs ih =>
    intro e h
    by_cases hboth : b.alive ∈ ns ∧ b.dead ∈ ns
    · rw [bossStates, if_pos hboth] at h
      exact ⟨_, (Except.error.inj h).symm⟩
    by_cases halive : b.alive ∈ ns
    · rw [bossStates, if_neg hboth, if_pos halive] at h
      cases hbs : bossStates ns bs with
      | error e' =>
        rw [hbs] at h
        simp only [Except.map] at h
        obtain ⟨m, rfl⟩ := ih e' hbs
        exact ⟨m, (Except.error.inj h).symm⟩
      | ok d' => rw [hbs] at h; simp only [Except.map] at h; cases h
    by_cases hdead : b.dead ∈ ns
    · rw [bossStates, if_neg hboth, if_neg halive, if_pos hdead] at h
      cases hbs : bossStates ns bs with
      | error e' =>
        rw [hbs] at h
        simp only [Except.map] at h
        obtain ⟨m, rfl⟩ := ih e' hbs
        exact ⟨m, (Except.error.inj h).symm⟩
      | ok d' => rw [hbs] at h; simp only [Except.map] at h; cases h
    · rw [bossStates, if_neg hboth, if_neg halive, if_neg hdead] at h
      exact ⟨_, (Except.error.inj h).symm⟩

/-- C6: once a combinatorial-cell password parses to nine sorted codes with
a valid tank cell, decoding raises `InvalidPassword` whenever some boss's
normalized code set contains both its alive and its dead code, and also
whenever some boss matches neither code. -/
theorem mm2_boss_exclusivity (t : List Char) (ints : List Int) (c0 : Int)
    (rest : List Int)
    (hparse : mapExcept cell2int (splitOnSpace t) = .ok ints)
    (hsort : sortInt ints = c0 :: rest)
    (hlen : ints.length = 9)
    (htank : c0 ≤ 4)
    (hbad : ∃ b ∈ mm2Bosses,
        (b.alive ∈ rest.map (normCode c0) ∧ b.dead ∈ rest.map (normCode c0))
          ∨ (b.alive ∉ rest.map (normCode c0) ∧ b.dead ∉ rest.map (normCode c0))) :
    ∃ msg, mm2Decode t = .error (.invalid msg) := by
  have hlen9 : (c0 :: rest).length = 9 := by
    rw [← hsort]
    show (List.insertionSort _ ints).length = 9
    rw [(List.perm_insertionSort _ ints).length_eq]
    exact hlen
  cases hbs : bossStates (rest.map (normCode c0)) mm2Bosses with
  | ok d =>
    exfalso
    obtain ⟨b, hbmem, hb⟩ := hbad
    have hxor := (bossStates_ok_imp _ _ _ hbs).1 b hbmem
    rcases hb with ⟨ha, hd⟩ | ⟨hna, hnd⟩
    · exact (hxor.mp ha) hd
    · exact hna (hxor.mpr hnd)
  | error e =>
    obtain ⟨m, rfl⟩ := bossStates_err_shape _ _ _ hbs
    refine ⟨m, ?_⟩
    unfold mm2Decode
    rw [hparse]
    simp only [hsort, hlen9]
    rw [if_neg (by simp)]
    rw [if_neg (not_lt.mpr htank), hbs]

/-- Witness for C6 at the concrete text `A1 B2 B5 C1 C2 C3 C4 C5 D1`, whose
normalized codes contain both codes of one boss. -/
theorem mm2_boss_exclusivity_witness :
    ∃ msg, mm2Decode ("A1 B2 B5 C1 C2 C3 C4 C5 D1").data = .error (.invalid msg) :=
  mm2_boss_exclusivity ("A1 B2 B5 C1 C2 C3 C4 C5 D1").data
    [0, 6, 9, 10, 11, 12, 13, 14, 15] 0 [6, 9, 10, 11, 12, 13, 14, 15]
    (by decide) (by decide) (by decide) (by decide) (by decide)

theorem charListLeB_total : ∀ a b : List Char,
    charListLeB a b = true ∨ charListLeB b a = true
  | [], _ => Or.inl rfl
  | _ :: _, [] => Or.inr rfl
  | a :: as, b :: bs => by
    simp only [charListLeB]
    rcases Nat.lt_trichotomy a.toNat b.toNat with h | h | h
    · left; rw [if_pos h]
    · have h1 : ¬(a.toNat < b.toNat) := by omega
      have h2 : ¬(b.toNat < a.toNat) := by omega
      rw [if_neg h1, if_neg h2, if_neg h2, if_neg h1]
      exact charListLeB_total as bs
    · right; rw [if_pos h]

theorem charListLeB_trans : ∀ a b c : List Char,
    charListLeB a b = true → charListLeB b c = true → charListLeB a c = true
  | [], _, _, _, _ => rfl
  | _ :: _, [], _, hab, _ => by simp [charListLeB] at hab
  | _ :: _, _ :: _, [], _, hbc => by simp [charListLeB] at hbc
  | a :: as, b :: bs, c :: cs, hab, hbc => by
    simp only [charListLeB] at hab hbc ⊢
    rcases Nat.lt_trichotomy a.toNat b.toNat with h1 | h1 | h1
    · rcases Nat.lt_trichotomy b.toNat c.toNat with h2 | h2 | h2
      · rw [if_pos (show a.toNat < c.toNat by omega)]
      · rw [if_pos (show a.toNat < c.toNat by omega)]
      · have hn : ¬(b.toNat < c.toNat) := by omega
        rw [if_neg hn, if_pos h2] at hbc
        exact Bool.noConfusion hbc
    · rcases Nat.lt_trichotomy b.toNat c.toNat with h2 | h2 | h2
      · rw [if_pos (show a.toNat < c.toNat by omega)]
      · have hnab : ¬(a.toNat < b.toNat) := by omega
        have hnba : ¬(b.toNat < a.toNat) := by omega
        have hnbc : ¬(b.toNat < c.toNat) := by omega
        have hncb : ¬(c.toNat < b.toNat) := by omega
        have hnac : ¬(a.toNat < c.toNat) := by omega
        have hnca : ¬(c.toNat < a.toNat) := by omega
        rw [if_neg hnab, if_neg hnba] at hab
        rw [if_neg hnbc, if_neg hncb] at hbc
        rw [if_neg hnac, if_neg hnca]
        exact charListLeB_trans as bs cs hab hbc
      · have hn : ¬(b.toNat < c.toNat) := by omega
        rw [if_neg hn, if_pos h2] at hbc
        exact Bool.noConfusion hbc
    · have hn : ¬(a.toNat < b.toNat) := by omega
      rw [if_neg hn, if_pos h1] at hab
      exact Bool.noConfusion hab

theorem charListLeB_antisymm : ∀ a b : List Char,
    charListLeB a b = true → charListLeB b a = true → a = b
  | [], [], _, _ => rfl
  | [], _ :: _, _, hba => by simp [charListLeB] at hba
  | _ :: _, [], hab, _ => by simp [charListLeB] at hab
  | a :: as, b :: bs, hab, hba => by
    simp only [charListLeB] at hab hba
    rcases Nat.lt_trichotomy a.toNat b.toNat with h1 | h1 | h1
    · have hn : ¬(b.toNat < a.toNat) := by omega
      rw [if_neg hn, if_pos h1] at hba
      exact Bool.noConfusion hba
    · have hn : ¬(a.toNat < b.toNat) := by omega
      have hn' : ¬(b.toNat < a.toNat) := by omega
      rw [if_neg hn, if_neg hn'] at hab
      rw [if_neg hn', if_neg hn] at hba
      have heads : a = b := by
        rw [← Char.ofNat_toNat a, ← Char.ofNat_toNat b, h1]
      rw [heads, charListLeB_antisymm as bs hab hba]
    · have hn : ¬(a.toNat < b.toNat) := by omega
      rw [if_neg hn, if_pos h1] at hab
      exact Bool.noConfusion hab

theorem validCell_spec : ∀ c : List Char, validCell c →
    cell2int c = .ok (cellValue c) ∧ 0 ≤ cellValue c ∧ cellValue c < 25
      ∧ int2cell (cellValue c) = some c := by
  intro c h
  cases c with
  | nil => exact False.elim h
  | cons r c1 =>
    cases c1 with
    | nil => exact False.elim h
    | cons d c2 =>
      cases c2 with
      | cons x c3 => exact False.elim h
      | nil =>
        obtain ⟨hr, hd⟩ := (h : r ∈ ['A', 'B', 'C', 'D', 'E'] ∧ d ∈ ['1', '2', '3', '4', '5'])
        fin_cases hr <;> fin_cases hd <;>
          exact ⟨by decide, by decide, by decide, by decide⟩

/-- C3 (amended): a combinatorial-cell text of canonical cells (letter
`A`–`E`, digit `1`–`5`) in which at most one cell has value below 5 that
decodes successfully re-encodes to exactly the sorted input cells; in
particular the first concrete vector decodes to zero tanks with every boss
alive and re-encodes identically, and the second decodes to 4 tanks with
every boss dead and re-encodes identically. -/
theorem mm2_roundtrip_amended :
    (∀ (t : List Char) (s : MM2Pw),
        (∀ c ∈ splitOnSpace t, validCell c) →
        (splitOnSpace t).countP (fun c => decide (cellValue c < 5)) ≤ 1 →
        mm2Decode t = .ok s →
        mm2Str s = some (joinSpace (sortStr (splitOnSpace t))))
      ∧ mm2Decode ("A1 B5 C3 C4 D2 D5 E1 E2 E4").data
          = .ok ⟨0, mm2Bosses.map (fun b => (b.name, 0))⟩
      ∧ (mm2Decode ("A1 B5 C3 C4 D2 D5 E1 E2 E4").data).map mm2Str
          = .ok (some ("A1 B5 C3 C4 D2 D5 E1 E2 E4").data)
      ∧ mm2Decode ("A5 B2 B4 C1 C3 C5 D4 D5 E2").data
          = .ok ⟨4, mm2Bosses.map (fun b => (b.name, 1))⟩
      ∧ (mm2Decode ("A5 B2 B4 C1 C3 C5 D4 D5 E2").data).map mm2Str
          = .ok (some ("A5 B2 B4 C1 C3 C5 D4 D5 E2").data) := by
  refine ⟨?_, by decide, by decide, by decide, by decide⟩
  intro t s hvalid hlow hdec
  have hparse : mapExcept cell2int (splitOnSpace t)
      = .ok ((splitOnSpace t).map cellValue) :=
    mapExcept_eq_ok_of_forall (fun c hc => (validCell_spec c (hvalid c hc)).1)
  unfold mm2Decode at hdec
  simp only [hparse] at hdec
  cases hsor : sortInt ((splitOnSpace t).map cellValue) with
  | nil =>
    simp only [hsor] at hdec
    rw [if_pos (by simp)] at hdec
    cases hdec
  | cons c0 rest =>
    simp only [hsor] at hdec
    by_cases hlen9 : (c0 :: rest).length = 9
    case neg => rw [if_pos hlen9] at hdec; cases hdec
    rw [if_neg (not_not_intro hlen9)] at hdec
    by_cases htank : c0 > 4
    case pos => rw [if_pos htank] at hdec; cases hdec
    rw [if_neg htank] at hdec
    cases hbs : bossStates (rest.map (normCode c0)) mm2Bosses with
    | error e => rw [hbs] at hdec; cases hdec
    | ok d =>
      rw [hbs] at hdec
      have hs : s = ⟨c0, d⟩ := (Except.ok.inj hdec).symm
      obtain ⟨hxor, hd⟩ := bossStates_ok_imp _ _ _ hbs
      have hperm' : List.Perm (c0 :: rest) ((splitOnSpace t).map cellValue) := by
        rw [← hsor]; exact List.perm_insertionSort _ _
      have hmemints : ∀ v ∈ (splitOnSpace t).map cellValue, 0 ≤ v ∧ v < 25 := by
        intro v hv
        obtain ⟨c, hc, rfl⟩ := List.mem_map.mp hv
        exact ⟨(validCell_spec c (hvalid c hc)).2.1,
          (validCell_spec c (hvalid c hc)).2.2.1⟩
      have hrest_mem : ∀ v ∈ rest, v ∈ (splitOnSpace t).map cellValue :=
        fun v hv => hperm'.mem_iff.mp (List.mem_cons_of_mem _ hv)
      have hc0mem : c0 ∈ (splitOnSpace t).map cellValue :=
        hperm'.mem_iff.mp (List.mem_cons_self _ _)
      have hc0rng := hmemints c0 hc0mem
      have htank' : c0 ≤ 4 := not_lt.mp htank
      have hcount : ((splitOnSpace t).map cellValue).countP
          (fun v => decide (v < 5)) ≤ 1 := by
        rw [List.countP_map]; exact hlow
      have hrest5 : ∀ v ∈ rest, 5 ≤ v := by
        intro v hv
        by_contra hlt
        push_neg at hlt
        have h1 : 0 < rest.countP (fun x => decide (x < 5)) :=
          List.countP_pos_iff.mpr ⟨v, hv, by simpa using hlt⟩
        have h2 : (c0 :: rest).countP (fun x => decide (x < 5))
            = rest.countP (fun x => decide (x < 5)) + 1 := by
          rw [List.countP_cons]
          simp [show c0 < 5 by omega]
        have h3 := hperm'.countP_eq (fun x => decide (x < 5))
        omega
      have hrest25 : ∀ v ∈ rest, v < 25 :=
        fun v hv => (hmemints v (hrest_mem v hv)).2
      have hunnorm : ∀ v ∈ rest, (normCode c0 v + c0) % 20 + 5 = v := by
        intro v hv
        have h5 := hrest5 v hv
        have h25 := hrest25 v hv
        show ((v - 5 - c0) % 20 + c0) % 20 + 5 = v
        rw [Int.emod_add_emod]
        have he : v - 5 - c0 + c0 = v - 5 := by ring
        rw [he, Int.emod_eq_of_lt (by omega) (by omega)]
        omega
      have hpickmem : ∀ b ∈ mm2Bosses,
          pick (rest.map (normCode c0)) b ∈ rest.map (normCode c0) := by
        intro b hb
        unfold pick
        by_cases hbd : b.dead ∈ rest.map (normCode c0)
        · rw [if_pos hbd]; exact hbd
        · rw [if_neg hbd]; exact (hxor b hb).mpr hbd
      have hpick_owner : ∀ (nm : String) (a dd : Int),
          owner (pick (rest.map (normCode c0)) ⟨nm, a, dd⟩)
            = if dd ∈ rest.map (normCode c0) then owner dd else owner a := by
        intro nm a dd
        unfold pick
        exact apply_ite owner _ _ _
      have hmap_owner : ((mm2Bosses.map (pick (rest.map (normCode c0)))).map owner)
          = [0, 1, 2, 3, 4, 5, 6, 7] := by
        simp only [mm2Bosses, List.map_cons, List.map_nil, hpick_owner]
        norm_num [owner]
      have hnodup : (mm2Bosses.map (pick (rest.map (normCode c0)))).Nodup := by
        have h01 : ([0, 1, 2, 3, 4, 5, 6, 7] : List Nat).Nodup := by decide
        rw [← hmap_owner] at h01
        exact List.Nodup.of_map _ h01
      have hsub : mm2Bosses.map (pick (rest.map (normCode c0)))
          ⊆ rest.map (normCode c0) := by
        intro x hx
        obtain ⟨b, hb, rfl⟩ := List.mem_map.mp hx
        exact hpickmem b hb
      have hlen_r : rest.length = 8 := by
        have := hlen9
        simp only [List.length_cons] at this
        omega
      have hlen_ns : (rest.map (normCode c0)).length = 8 := by
        rw [List.length_map]; exact hlen_r
      have hlen_m : (mm2Bosses.map (pick (rest.map (normCode c0)))).length = 8 := by
        simp [mm2Bosses]
      have hpermm : List.Perm (mm2Bosses.map (pick (rest.map (normCode c0))))
          (rest.map (normCode c0)) :=
        (List.subperm_of_subset hnodup hsub).perm_of_length_le (by omega)
      have hns_unnorm : (rest.map (normCode c0)).map (fun x => (x + c0) % 20 + 5)
          = rest := by
        rw [List.map_map]
        have hcong : ∀ v ∈ rest,
            ((fun x => (x + c0) % 20 + 5) ∘ normCode c0) v = v :=
          fun v hv => hunnorm v hv
        rw [List.map_congr_left hcong]
        simp
      have hencInts : List.Perm
          (mm2Bosses.map (fun b => (pick (rest.map (normCode c0)) b + c0) % 20 + 5))
          rest := by
        have hmm : mm2Bosses.map
            (fun b => (pick (rest.map (normCode c0)) b + c0) % 20 + 5)
            = (mm2Bosses.map (pick (rest.map (normCode c0)))).map
                (fun x => (x + c0) % 20 + 5) := by
          rw [List.map_map]; rfl
        rw [hmm]
        have hp := hpermm.map (fun x => (x + c0) % 20 + 5)
        rw [hns_unnorm] at hp
        exact hp
      have hlookup : ∀ b ∈ mm2Bosses,
          lookupA (mm2Bosses.map
              (fun b' => (b'.name, if b'.dead ∈ rest.map (normCode c0) then 1 else 0)))
            b.name
            = some (if b.dead ∈ rest.map (normCode c0) then 1 else 0) := by
        intro b hb
        fin_cases hb <;> simp [mm2Bosses, lookupA]
      have hcond : ∀ (c : Prop) (inst : Decidable c) (A B : Int),
          (if (if c then (1 : Int) else 0) ≠ 0 then A else B) = if c then A else B := by
        intro c inst A B
        by_cases hc : c <;> simp [hc]
      have hbossmap : mapOpt (fun b =>
          (lookupA (mm2Bosses.map
              (fun b' => (b'.name, if b'.dead ∈ rest.map (normCode c0) then 1 else 0)))
            b.name).map
            (fun v => ((if v ≠ 0 then b.dead else b.alive) + c0) % 20 + 5)) mm2Bosses
          = some (mm2Bosses.map
              (fun b => (pick (rest.map (normCode c0)) b + c0) % 20 + 5)) := by
        apply mapOpt_eq_some_of_forall
        intro b hb
        rw [hlookup b hb]
        show some (((if (if b.dead ∈ rest.map (normCode c0) then (1 : Int) else 0) ≠ 0
            then b.dead else b.alive) + c0) % 20 + 5) = _
        rw [hcond]
        rfl
      have hencPerm : List.Perm
          (c0 :: mm2Bosses.map (fun b => (pick (rest.map (normCode c0)) b + c0) % 20 + 5))
          ((splitOnSpace t).map cellValue) :=
        (List.Perm.cons c0 hencInts).trans hperm'
      have hint2cell : ∀ v ∈ (c0 :: mm2Bosses.map
          (fun b => (pick (rest.map (normCode c0)) b + c0) % 20 + 5)),
          int2cell v = some (cellOf v) := by
        intro v hv
        have hvmem := hencPerm.mem_iff.mp hv
        obtain ⟨c, hc, hvc⟩ := List.mem_map.mp hvmem
        have hic := (validCell_spec c (hvalid c hc)).2.2.2
        rw [← hvc, hic]
        show some c = some (cellOf (cellValue c))
        unfold cellOf
        rw [hic]
        rfl
      have hmapopt2 : mapOpt int2cell (c0 :: mm2Bosses.map
            (fun b => (pick (rest.map (normCode c0)) b + c0) % 20 + 5))
          = some ((c0 :: mm2Bosses.map
              (fun b => (pick (rest.map (normCode c0)) b + c0) % 20 + 5)).map cellOf) :=
        mapOpt_eq_some_of_forall (fun v hv => hint2cell v hv)
      have hcellOf_id : ((splitOnSpace t).map cellValue).map cellOf = splitOnSpace t := by
        rw [List.map_map]
        have hcong : ∀ c ∈ splitOnSpace t, (cellOf ∘ cellValue) c = c := by
          intro c hc
          show cellOf (cellValue c) = c
          unfold cellOf
          rw [(validCell_spec c (hvalid c hc)).2.2.2]
          rfl
        rw [List.map_congr_left hcong]
        simp
      have hstrsPerm : List.Perm ((c0 :: mm2Bosses.map
            (fun b => (pick (rest.map (normCode c0)) b + c0) % 20 + 5)).map cellOf)
          (splitOnSpace t) := by
        have hp := hencPerm.map cellOf
        rw [hcellOf_id] at hp
        exact hp
      have hsorteq : sortStr ((c0 :: mm2Bosses.map
            (fun b => (pick (rest.map (normCode c0)) b + c0) % 20 + 5)).map cellOf)
          = sortStr (splitOnSpace t) := by
        letI : IsTrans (List Char) charListLe := ⟨fun a b c => charListLeB_trans a b c⟩
        letI : IsAntisymm (List Char) charListLe := ⟨fun a b => charListLeB_antisymm a b⟩
        letI : IsTotal (List Char) charListLe := ⟨fun a b => charListLeB_total a b⟩
        apply List.eq_of_perm_of_sorted (r := charListLe)
        · exact ((List.perm_insertionSort _ _).trans hstrsPerm).trans
            (List.perm_insertionSort _ _).symm
        · exact List.sorted_insertionSort _ _
        · exact List.sorted_insertionSort _ _
      rw [hs, hd]
      unfold mm2Str
      dsimp only
      simp only [hbossmap, hmapopt2]
      rw [hsorteq]

/-- C3 counterexample: the claim as stated is false — the nine-cell text
`A1 A1 B5 C3 C4 D2 D5 E2 E4` (with a duplicated sub-5 cell) decodes
successfully, yet re-encoding produces `A1 B5 C3 C4 D2 D5 E1 E2 E4`, a
different (sorted) cell set than the input's. -/
theorem mm2_roundtrip_counterexample :
    (mm2Decode ("A1 A1 B5 C3 C4 D2 D5 E2 E4").data).map mm2Str
        = .ok (some ("A1 B5 C3 C4 D2 D5 E1 E2 E4").data)
      ∧ joinSpace (sortStr (splitOnSpace ("A1 A1 B5 C3 C4 D2 D5 E2 E4").data))
          = ("A1 A1 B5 C3 C4 D2 D5 E2 E4").data
      ∧ ("A1 B5 C3 C4 D2 D5 E1 E2 E4").data
          ≠ ("A1 A1 B5 C3 C4 D2 D5 E2 E4").data := by
  refine ⟨by decide, by decide, by decide⟩

/-- Witness for C3 at the first concrete vector of the spec (nine canonical
cells, one below 5, decoding to zero tanks with every boss alive). -/
theorem mm2_roundtrip_amended_witness :
    mm2Str ⟨0, mm2Bosses.map (fun b => (b.name, 0))⟩
      = some (joinSpace (sortStr (splitOnSpace ("A1 B5 C3 C4 D2 D5 E1 E2 E4").data))) :=
  mm2_roundtrip_amended.1 ("A1 B5 C3 C4 D2 D5 E1 E2 E4").data
    ⟨0, mm2Bosses.map (fun b => (b.name, 0))⟩
    (by decide) (by decide) (by decide)
